import Mathlib

/-!
Verification of the valuation-percentile scoring, position-sizing, screening
and allocation logic of the asset-allocation repository.

All machine arithmetic of the source is embedded over exact rationals,
except for the transcendental position-sizing curves which are embedded over
the reals.  A series of valuation observations is embedded as a list of
rationals in chronological order (earliest first, latest last), matching the
data-frame column whose current value is taken with `iloc[-1]`, unless a
definition says otherwise.
-/

namespace AssetAlloc

/-- Embedding of `numpy.percentile(data, q)` with the default linear
interpolation method: sort ascending, take the virtual index
`q / 100 * (n - 1)`, and interpolate linearly between the two neighbouring
order statistics.  (Used by `winsorize`, `strategy.py` lines 128-129.) -/
def npPercentile (data : List ℚ) (q : ℚ) : ℚ :=
  let s := data.insertionSort (· ≤ ·)
  let n := s.length
  if n = 0 then 0
  else
    let pos : ℚ := q / 100 * ((n : ℚ) - 1)
    let i : ℕ := (⌊pos⌋).toNat
    let lo := s.getD i 0
    let hi := s.getD (i + 1) lo
    lo + (pos - (⌊pos⌋ : ℚ)) * (hi - lo)

/-- Embedding of `NonlinearTwoStepInvestmentStrategy.winsorize`
(`strategy.py` lines 118-132): clip every value of the series to the
`[pct, 1-pct]` empirical quantile range of that same series; an empty series
is returned unchanged.  `np.clip(x, lb, ub)` is `min (max x lb) ub`. -/
def winsorize (data : List ℚ) (pct : ℚ) : List ℚ :=
  if data.length = 0 then data
  else
    let lower := npPercentile data (pct * 100)
    let upper := npPercentile data ((1 - pct) * 100)
    data.map (fun x => min (max x lower) upper)

/-- The current (most recent) value as it is used by the indicator
comparisons of `calculate_weighted_percentile` (`strategy.py` line 162): the
code winsorizes the one-element array holding only the current value. -/
def winsorizedCurrent (data : List ℚ) (pct : ℚ) : ℚ :=
  (winsorize [data.getLastD 0] pct).getD 0 0

/-- The clipping of the current value that the specification describes:
clip to the `[pct, 1-pct]` empirical quantile range computed over the full
series.  Stated from the spec wording for comparison with
`winsorizedCurrent`. -/
def specClippedCurrent (data : List ℚ) (pct : ℚ) : ℚ :=
  min (max (data.getLastD 0) (npPercentile data (pct * 100)))
    (npPercentile data ((1 - pct) * 100))

/-- The weighted indicator sum of the loop of
`calculate_weighted_percentile` (`strategy.py` lines 169-179): the element
at 0-based index `t` of a series of length `T` contributes
`lam ^ (T - t) * I(value < wcur)`.  Since `T - t` is the length of the
suffix starting at index `t`, the loop is embedded structurally: the head of
each suffix is weighted by `lam ^ (suffix length)`. -/
def decayedIndicatorSum (lam wcur : ℚ) : List ℚ → ℚ
  | [] => 0
  | x :: rest =>
      lam ^ (x :: rest).length * (if x < wcur then 1 else 0) +
        decayedIndicatorSum lam wcur rest

/-- The total weight of the same loop: the element at 0-based index `t`
has weight `lam ^ (T - t)`, i.e. `lam ^ (suffix length)`. -/
def decayWeightTotal (lam : ℚ) : List ℚ → ℚ
  | [] => 0
  | x :: rest => lam ^ (x :: rest).length + decayWeightTotal lam rest

/-- Embedding of `calculate_weighted_percentile` (`strategy.py` lines
151-184), returning the percentile component.  An empty series yields the
literal 0.0 of the early-return branch; otherwise the percentile is the
normalized weighted indicator sum times 100, or 50 when the total weight is
not positive. -/
def calculate_weighted_percentile (data : List ℚ) (lam pct : ℚ) : ℚ :=
  if data.length = 0 then 0
  else
    let wcur := winsorizedCurrent data pct
    let ws := decayedIndicatorSum lam wcur (winsorize data pct)
    let tw := decayWeightTotal lam (winsorize data pct)
    if 0 < tw then ws / tw * 100 else 50

/-- The weighted indicator sum under the weighting scheme the specification
asserts: weight `lam ^ (T - t)` for 1-indexed `t`, so the element at
0-based index `t` has weight `lam ^ (T - 1 - t) = lam ^ (suffix length - 1)`
and the latest observation has weight `lam ^ 0 = 1`.  The indicators are the
ones the code computes. -/
def claimedIndicatorSum (lam wcur : ℚ) : List ℚ → ℚ
  | [] => 0
  | x :: rest =>
      lam ^ rest.length * (if x < wcur then 1 else 0) +
        claimedIndicatorSum lam wcur rest

/-- Total weight under the specification's weighting scheme. -/
def claimedWeightTotal (lam : ℚ) : List ℚ → ℚ
  | [] => 0
  | x :: rest => lam ^ rest.length + claimedWeightTotal lam rest

/-- The percentile value asserted by the specification:
`(Σ weight·indicator) / (Σ weight) × 100` with weight `lam ^ (T - t)` for
1-indexed `t`. -/
def claimed_percentile (data : List ℚ) (lam pct : ℚ) : ℚ :=
  claimedIndicatorSum lam (winsorizedCurrent data pct) (winsorize data pct) /
    claimedWeightTotal lam (winsorize data pct) * 100

/-! Basic facts about the Percentile Scorer embedding. -/

theorem npPercentile_singleton (x q : ℚ) : npPercentile [x] q = x := by
  simp [npPercentile]

theorem winsorize_singleton (x pct : ℚ) : winsorize [x] pct = [x] := by
  simp [winsorize, npPercentile_singleton]

theorem winsorize_length (data : List ℚ) (pct : ℚ) :
    (winsorize data pct).length = data.length := by
  unfold winsorize
  split
  · rfl
  · simp

theorem decayedIndicatorSum_eq_mul (lam wcur : ℚ) (l : List ℚ) :
    decayedIndicatorSum lam wcur l = lam * claimedIndicatorSum lam wcur l := by
  induction l with
  | nil => simp [decayedIndicatorSum, claimedIndicatorSum]
  | cons x rest ih =>
      simp only [decayedIndicatorSum, claimedIndicatorSum, List.length_cons, ih]
      ring

theorem decayWeightTotal_eq_mul (lam : ℚ) (l : List ℚ) :
    decayWeightTotal lam l = lam * claimedWeightTotal lam l := by
  induction l with
  | nil => simp [decayWeightTotal, claimedWeightTotal]
  | cons x rest ih =>
      simp only [decayWeightTotal, claimedWeightTotal, List.length_cons, ih]
      ring

theorem claimedWeightTotal_pos (lam : ℚ) (hlam : 0 < lam) :
    ∀ l : List ℚ, l ≠ [] → 0 < claimedWeightTotal lam l := by
  intro l
  induction l with
  | nil => intro h; exact absurd rfl h
  | cons x rest ih =>
      intro _
      have hx : 0 < lam ^ rest.length := pow_pos hlam _
      rcases rest with _ | ⟨y, ys⟩
      · simpa [claimedWeightTotal] using hx
      · have := ih (by simp)
        simp only [claimedWeightTotal] at *
        linarith

/-- Claim C1 (counterexample): on the series `[1, 2, 3, 4, 10]` with
`winsorize_pct = 0.05`, the current value used by the indicator comparisons
is the raw value 10, not the value 44/5 obtained by clipping to the
`[0.05, 0.95]` empirical quantile range of the full series; accordingly the
returned percentile is exactly 100. -/
theorem winsorized_current_counterexample :
    winsorizedCurrent [1, 2, 3, 4, 10] (1/20) = 10 ∧
    specClippedCurrent [1, 2, 3, 4, 10] (1/20) = 44/5 ∧
    (10 : ℚ) ≠ 44/5 ∧
    calculate_weighted_percentile [1, 2, 3, 4, 10] (19/20) (1/20) = 100 := by
  refine ⟨?_, ?_, by norm_num, ?_⟩
  · simp [winsorizedCurrent, winsorize_singleton]
  · norm_num [specClippedCurrent, npPercentile, List.insertionSort,
      List.orderedInsert, show Int.toNat 3 = 3 from rfl,
      show Int.toNat 0 = 0 from rfl]
  · norm_num [calculate_weighted_percentile, winsorizedCurrent,
      winsorize_singleton, winsorize, npPercentile, List.insertionSort,
      List.orderedInsert, show Int.toNat 3 = 3 from rfl,
      show Int.toNat 0 = 0 from rfl, decayedIndicatorSum, decayWeightTotal]

/-- Claim C1 (amended): for every series and every `winsorize_pct`, the
current value entering the indicator comparisons is winsorized against the
one-element series holding only itself, whose quantile bounds both equal
that value, so the comparison uses the raw current value and no clipping to
the full series' quantile range takes place. -/
theorem winsorized_current_identity (data : List ℚ) (pct : ℚ) :
    winsorizedCurrent data pct = data.getLastD 0 := by
  simp [winsorizedCurrent, winsorize_singleton]

/-- Claim C4: for every non-empty series and every decay factor in `(0, 1]`,
the percentile returned by `calculate_weighted_percentile` equals
`(Σ weight·indicator) / (Σ weight) × 100` with weight `lam ^ (T - t)` for
1-indexed `t` (latest weight 1): the code's exponents `T - t` for 0-indexed
`t` are all one higher, and the common factor `lam` cancels in the
normalization. -/
theorem weighted_percentile_decay_normalization (data : List ℚ)
    (lam pct : ℚ) (hne : data ≠ []) (hlam0 : 0 < lam) (hlam1 : lam ≤ 1) :
    calculate_weighted_percentile data lam pct =
      claimed_percentile data lam pct := by
  have hlen : ¬ data.length = 0 := fun h => hne (List.length_eq_zero.mp h)
  have hwne : winsorize data pct ≠ [] := by
    intro h
    exact hlen (by rw [← winsorize_length data pct, h]; rfl)
  have hpos : 0 < claimedWeightTotal lam (winsorize data pct) :=
    claimedWeightTotal_pos lam hlam0 _ hwne
  simp only [calculate_weighted_percentile, claimed_percentile]
  rw [if_neg hlen, decayedIndicatorSum_eq_mul, decayWeightTotal_eq_mul,
    if_pos (mul_pos hlam0 hpos), mul_div_mul_left _ _ (ne_of_gt hlam0)]

theorem weighted_percentile_decay_normalization_witness :
    calculate_weighted_percentile [1, 2] (1/2) 0 =
      claimed_percentile [1, 2] (1/2) 0 :=
  weighted_percentile_decay_normalization [1, 2] (1/2) 0 (by simp)
    (by norm_num) (by norm_num)

/-- Claim C9: `calculate_weighted_percentile` returns the defined neutral
value 0.0 on an empty series, and returns percentile 0 on every
single-observation series (the strict comparison of the value against
itself yields indicator 0). -/
theorem weighted_percentile_degenerate_cases :
    (∀ lam pct : ℚ, calculate_weighted_percentile [] lam pct = 0) ∧
    (∀ x lam pct : ℚ, 0 < lam →
      calculate_weighted_percentile [x] lam pct = 0) := by
  constructor
  · intro lam pct
    simp [calculate_weighted_percentile]
  · intro x lam pct hlam
    simp only [calculate_weighted_percentile, winsorizedCurrent,
      show List.getLastD [x] (0:ℚ) = x from rfl]
    rw [winsorize_singleton]
    simp [decayedIndicatorSum, decayWeightTotal, hlam]

theorem weighted_percentile_degenerate_witness :
    calculate_weighted_percentile [] (19/20) (1/20) = 0 ∧
    calculate_weighted_percentile [7] (1/2) (1/20) = 0 :=
  ⟨weighted_percentile_degenerate_cases.1 (19/20) (1/20),
    weighted_percentile_degenerate_cases.2 7 (1/2) (1/20) (by norm_num)⟩

/-! Position Sizer: `nonlinear_position_sizing` (`strategy.py` lines
186-236), embedded over the reals. -/

noncomputable section

/-- Embedding of `np.interp(x, [0, 0.2, 0.5, 0.8, 1.0],
[1.0, 0.9, 0.5, 0.2, 0.0])` of the custom curve (`strategy.py` lines
223-227): clamp outside the control range, interpolate linearly between
consecutive control points. -/
def interpCustom (x : ℝ) : ℝ :=
  if x ≤ 0 then 1
  else if x ≤ 0.2 then 1 + (x - 0) / (0.2 - 0) * (0.9 - 1)
  else if x ≤ 0.5 then 0.9 + (x - 0.2) / (0.5 - 0.2) * (0.5 - 0.9)
  else if x ≤ 0.8 then 0.5 + (x - 0.5) / (0.8 - 0.5) * (0.2 - 0.5)
  else if x ≤ 1 then 0.2 + (x - 0.8) / (1 - 0.8) * (0 - 0.2)
  else 0

/-- Embedding of `nonlinear_position_sizing` (`strategy.py` lines 186-236):
normalize the percentile to `x`, dispatch on the curve-type string
(unknown strings fall back to the fixed power 0.7), and clamp the result
into `[0, 1]` with `np.clip(position, 0, 1) = min (max position 0) 1`. -/
def nonlinear_position_sizing (ntype : String)
    (aggressiveness percentile : ℝ) : ℝ :=
  let x := percentile / 100
  let position :=
    if ntype = "linear" then 1 - x
    else if ntype = "sigmoid" then
      1 / (1 + Real.exp (5 * aggressiveness * (x - 0.5)))
    else if ntype = "power" then (1 - x) ^ (0.7 / aggressiveness)
    else if ntype = "custom" then interpCustom x
    else (1 - x) ^ (0.7 : ℝ)
  min (max position 0) 1

end

theorem sigmoid_eval (a p : ℝ) :
    nonlinear_position_sizing "sigmoid" a p =
      1 / (1 + Real.exp (5 * a * (p / 100 - 0.5))) := by
  have hexp := Real.exp_pos (5 * a * (p / 100 - 0.5))
  have h1 : (0:ℝ) < 1 + Real.exp (5 * a * (p / 100 - 0.5)) := by linarith
  have h2 : 1 / (1 + Real.exp (5 * a * (p / 100 - 0.5))) ≤ 1 := by
    rw [div_le_one h1]; linarith
  have h0 : (0:ℝ) ≤ 1 / (1 + Real.exp (5 * a * (p / 100 - 0.5))) :=
    le_of_lt (by positivity)
  simp only [nonlinear_position_sizing,
    show (("sigmoid" : String) = "linear") = False by simp,
    show (("sigmoid" : String) = "sigmoid") = True by simp,
    if_true, if_false]
  rw [max_eq_left h0, min_eq_left h2]

/-- Claim C7: the Position Sizer output is clamped into `[0, 1]` for every
curve type, percentile in `[0, 100]` and positive aggressiveness, and the
linear and custom curves take the documented values at the control
percentiles 0, 50 and 100. -/
theorem position_sizer_range_and_values :
    (∀ (ntype : String) (a p : ℝ), 0 ≤ p → p ≤ 100 → 0 < a →
      0 ≤ nonlinear_position_sizing ntype a p ∧
        nonlinear_position_sizing ntype a p ≤ 1) ∧
    nonlinear_position_sizing "linear" 1 0 = 1 ∧
    nonlinear_position_sizing "linear" 1 100 = 0 ∧
    nonlinear_position_sizing "custom" 1 0 = 1 ∧
    nonlinear_position_sizing "custom" 1 50 = 1/2 ∧
    nonlinear_position_sizing "custom" 1 100 = 0 := by
  refine ⟨fun ntype a p _ _ _ => ⟨?_, ?_⟩, ?_, ?_, ?_, ?_, ?_⟩
  · exact le_min (le_max_right _ 0) zero_le_one
  · exact min_le_right _ 1
  all_goals simp [nonlinear_position_sizing]
  all_goals norm_num [interpCustom, min_def, max_def]

theorem position_sizer_range_witness :
    0 ≤ nonlinear_position_sizing "power" 2 30 ∧
      nonlinear_position_sizing "power" 2 30 ≤ 1 :=
  position_sizer_range_and_values.1 "power" 2 30 (by norm_num) (by norm_num)
    (by norm_num)

/-- Claim C8: for every positive aggressiveness, the sigmoid curve is
strictly decreasing in the percentile, takes the value 1/2 at percentile
50, stays strictly inside `(0, 1)`, and in particular gives a strictly
larger fraction at percentile 20 than at percentile 80. -/
theorem sigmoid_curve_properties (a : ℝ) (ha : 0 < a) :
    (∀ p q : ℝ, p < q →
      nonlinear_position_sizing "sigmoid" a q <
        nonlinear_position_sizing "sigmoid" a p) ∧
    nonlinear_position_sizing "sigmoid" a 50 = 1/2 ∧
    (∀ p : ℝ, 0 < nonlinear_position_sizing "sigmoid" a p ∧
      nonlinear_position_sizing "sigmoid" a p < 1) ∧
    nonlinear_position_sizing "sigmoid" a 80 <
      nonlinear_position_sizing "sigmoid" a 20 := by
  have key : ∀ p q : ℝ, p < q →
      nonlinear_position_sizing "sigmoid" a q <
        nonlinear_position_sizing "sigmoid" a p := by
    intro p q hpq
    rw [sigmoid_eval, sigmoid_eval]
    have harg : 5 * a * (p / 100 - 0.5) < 5 * a * (q / 100 - 0.5) := by
      have : p / 100 - 0.5 < q / 100 - 0.5 := by linarith
      nlinarith
    have hexp := Real.exp_lt_exp.mpr harg
    have hp1 : (0:ℝ) < 1 + Real.exp (5 * a * (p / 100 - 0.5)) := by
      have := Real.exp_pos (5 * a * (p / 100 - 0.5)); linarith
    exact one_div_lt_one_div_of_lt hp1 (by linarith)
  refine ⟨key, ?_, ?_, key 20 80 (by norm_num)⟩
  · rw [sigmoid_eval]
    norm_num
  · intro p
    rw [sigmoid_eval]
    have hexp := Real.exp_pos (5 * a * (p / 100 - 0.5))
    constructor
    · positivity
    · rw [div_lt_one (by linarith)]; linarith

theorem sigmoid_curve_witness :
    nonlinear_position_sizing "sigmoid" 1 50 = 1/2 ∧
    nonlinear_position_sizing "sigmoid" 1 80 <
      nonlinear_position_sizing "sigmoid" 1 20 :=
  ⟨(sigmoid_curve_properties 1 one_pos).2.1,
    (sigmoid_curve_properties 1 one_pos).2.2.2⟩

/-! ETF selection: `select_top_etfs` (`strategy.py` lines 278-317) and
`calculate_nonlinear_weights` (`strategy.py` lines 319-339). -/

/-- One scored entry of the `etf_scores` list built by `select_top_etfs`;
only the fields the ranking depends on are kept. -/
structure EtfScore where
  name : String
  percentile : ℚ

/-- The constant momentum score of `select_top_etfs`
(`strategy.py` line 293). -/
def momentum_score : ℚ := 10

/-- The constant volatility score of `select_top_etfs`
(`strategy.py` line 297). -/
def volatility_score : ℚ := 5

/-- The total score of `select_top_etfs` (`strategy.py` lines 289-300):
valuation score `100 - percentile` weighted 0.8, plus the constant
momentum and volatility scores weighted 0.1 each. -/
def total_score (p : ℚ) : ℚ :=
  (100 - p) * 0.8 + momentum_score * 0.1 + volatility_score * 0.1

/-- Order of the stable descending sort on total score
(`strategy.py` line 314). -/
def scoreDesc (a b : EtfScore) : Prop :=
  total_score b.percentile ≤ total_score a.percentile

instance : DecidableRel scoreDesc := fun a b =>
  inferInstanceAs (Decidable (total_score b.percentile ≤ total_score a.percentile))

/-- Order of a stable ascending sort on the valuation percentile, the
ranking the claim asserts the module degenerates to. -/
def percentileAsc (a b : EtfScore) : Prop := a.percentile ≤ b.percentile

instance : DecidableRel percentileAsc := fun a b =>
  inferInstanceAs (Decidable (a.percentile ≤ b.percentile))

/-- Embedding of `select_top_etfs` (`strategy.py` lines 278-317): stable
sort of the scored entries descending by total score, then take the first
`n`. -/
def select_top_etfs (entries : List EtfScore) (n : ℕ) : List EtfScore :=
  (entries.insertionSort scoreDesc).take n

/-- The pure valuation ranking: stable sort ascending by percentile, then
take the first `n`.  Stated for comparison with `select_top_etfs`. -/
def select_top_etfs_by_valuation (entries : List EtfScore) (n : ℕ) :
    List EtfScore :=
  (entries.insertionSort percentileAsc).take n

theorem orderedInsert_congr {α : Type} (r s : α → α → Prop)
    [DecidableRel r] [DecidableRel s] (hrs : ∀ a b, r a b ↔ s a b)
    (a : α) : ∀ l : List α, l.orderedInsert r a = l.orderedInsert s a
  | [] => rfl
  | b :: t => by
      simp only [List.orderedInsert]
      by_cases hc : s a b
      · rw [if_pos ((hrs a b).mpr hc), if_pos hc]
      · rw [if_neg (fun hr => hc ((hrs a b).mp hr)), if_neg hc,
          orderedInsert_congr r s hrs a t]

theorem insertionSort_congr {α : Type} (r s : α → α → Prop)
    [DecidableRel r] [DecidableRel s] (hrs : ∀ a b, r a b ↔ s a b) :
    ∀ l : List α, l.insertionSort r = l.insertionSort s
  | [] => rfl
  | b :: t => by
      simp only [List.insertionSort]
      rw [insertionSort_congr r s hrs t, orderedInsert_congr r s hrs b]

/-- Claim C10: the momentum and volatility components of
`select_top_etfs` are the constants 10 and 5, so the total score is the
strictly decreasing affine function `0.8 * (100 - p) + 1.5` of the
valuation percentile, and the descending total-score ranking (with any
top-`n` truncation) coincides with the ascending valuation-percentile
ranking. -/
theorem select_top_etfs_valuation_ranking :
    (∀ p : ℚ, total_score p = 0.8 * (100 - p) + 1.5) ∧
    (∀ p q : ℚ, total_score p < total_score q ↔ q < p) ∧
    ∀ (entries : List EtfScore) (n : ℕ),
      select_top_etfs entries n = select_top_etfs_by_valuation entries n := by
  refine ⟨fun p => ?_, fun p q => ?_, fun entries n => ?_⟩
  · unfold total_score momentum_score volatility_score
    ring
  · unfold total_score
    constructor <;> intro h <;> nlinarith
  · unfold select_top_etfs select_top_etfs_by_valuation
    rw [insertionSort_congr scoreDesc percentileAsc
      (fun a b => by
        unfold scoreDesc percentileAsc total_score
        constructor <;> intro h <;> nlinarith) entries]

/-- Embedding of `calculate_nonlinear_weights` (`strategy.py` lines
319-339): map each percentile to the quadratic factor `((100 - p) / 50)^2`
and normalize by the factor sum.  The Python list comprehension
`[w / total for w in weights_raw]` performs a division per element, so it
raises `ZeroDivisionError` exactly when the factor list is non-empty and
the total is zero; that failure is embedded as `none`. -/
def calculate_nonlinear_weights (percentiles : List ℚ) : Option (List ℚ) :=
  let weights_raw := percentiles.map (fun p => ((100 - p) / 50) ^ 2)
  let total := weights_raw.sum
  if ¬ weights_raw.isEmpty ∧ total = 0 then none
  else some (weights_raw.map (fun w => w / total))

theorem list_sum_map_div (l : List ℚ) (t : ℚ) :
    (l.map (fun w => w / t)).sum = l.sum / t := by
  induction l with
  | nil => simp
  | cons x xs ih => simp [ih, add_div]

/-- Claim C3 (counterexample): when every selected percentile is 100, every
raw factor is 0, the factor total is 0, and the normalization of
`calculate_nonlinear_weights` divides by zero (raises) instead of
returning defined values. -/
theorem nonlinear_weights_zero_total_counterexample :
    calculate_nonlinear_weights [100, 100, 100] = none := by
  norm_num [calculate_nonlinear_weights]

/-- Claim C3 (amended): `calculate_nonlinear_weights` returns defined
normalized weights summing to 1 whenever the sum of the raw weight factors
is nonzero; when the selection is non-empty and the factor sum is zero
(for example, every percentile equal to 100) the normalization divides by
zero and raises instead of returning a neutral value. -/
theorem nonlinear_weights_defined_of_total_ne_zero (ps : List ℚ)
    (h : (ps.map (fun p => ((100 - p) / 50) ^ 2)).sum ≠ 0) :
    ∃ ws, calculate_nonlinear_weights ps = some ws ∧ ws.sum = 1 := by
  refine ⟨(ps.map (fun p => ((100 - p) / 50) ^ 2)).map
    (fun w => w / (ps.map (fun p => ((100 - p) / 50) ^ 2)).sum), ?_, ?_⟩
  · unfold calculate_nonlinear_weights
    rw [if_neg (fun hc => h hc.2)]
  · rw [list_sum_map_div, div_self h]

theorem nonlinear_weights_defined_witness :
    ∃ ws, calculate_nonlinear_weights [20, 50, 80] = some ws ∧ ws.sum = 1 :=
  nonlinear_weights_defined_of_total_ne_zero [20, 50, 80] (by norm_num)

/-! Composite Screener: `sw_lv2_selector.py`.  PE histories are embedded
as the lists of PE values in the order the code holds them, i.e. latest
first (the history is sorted descending by date before use). -/

/-- Embedding of `check_valuation_declining` (`sw_lv2_selector.py` lines
164-180): on a latest-first PE history, count the consecutive leading
months in which the PE strictly decreased month-over-month, stopping at
the first non-decrease; fewer than two observations give 0. -/
def check_valuation_declining : List ℚ → ℕ
  | x :: y :: rest =>
      if x < y then check_valuation_declining (y :: rest) + 1 else 0
  | _ => 0

/-- Embedding of `calculate_valuation_safety_score` (`sw_lv2_selector.py`
lines 194-228).  The percentiles are `None`-able inputs in the source;
a missing percentile gives 0. -/
def calculate_valuation_safety_score (pe_percentile price_percentile :
    Option ℚ) (pe_history : List ℚ) : ℚ :=
  match pe_percentile, price_percentile with
  | some pe, some pr =>
      let q := pe * 100
      let pct_price := pr * 100
      let declining_months := check_valuation_declining pe_history
      if q < 10 ∨ 3 ≤ declining_months then 0
      else if 70 < pct_price then 0
      else if 10 ≤ q ∧ q ≤ 30 ∧ pct_price ≤ 50 then
        (30 - q) / 20 * (70 - pct_price) / 70
      else if 10 ≤ q ∧ q ≤ 30 ∧ 50 < pct_price ∧ pct_price ≤ 70 then
        (30 - q) / 20 * 0.5
      else if 30 < q ∧ q ≤ 50 ∧ pct_price ≤ 50 then
        0.1 * ((50 - q) / 20)
      else 0
  | _, _ => 0

/-- Embedding of `calculate_price_resilience_coefficient`
(`sw_lv2_selector.py` lines 230-277), given the latest monthly change of
the instrument extracted from the data frame (`none` embeds the
missing-data and NaN branches, which return 0.0). -/
def calculate_price_resilience_coefficient (etf_change : Option ℚ)
    (all_indices_avg_change : ℚ) : ℚ :=
  match etf_change with
  | none => 0
  | some c =>
      if all_indices_avg_change ≤ c then 1
      else if -10 ≤ c then max 0 ((c + 10) / 10)
      else 0

/-- Embedding of `calculate_trading_activity_coefficient`
(`sw_lv2_selector.py` lines 279-336), given the 20-observation and
120-observation mean turnovers (`none` embeds the branches with fewer than
20 or 120 observations or NaN means, which return 0.0). -/
def calculate_trading_activity_coefficient (avg20 avg120 : Option ℚ) : ℚ :=
  match avg20, avg120 with
  | some a20, some a120 =>
      if a120 = 0 then 0
      else if a120 ≤ a20 then 1
      else if 0.5 * a120 ≤ a20 then 0.7
      else if 0.2 * a120 ≤ a20 then 0.3
      else 0
  | _, _ => 0

/-- Embedding of `calculate_comprehensive_score` (`sw_lv2_selector.py`
lines 338-346). -/
def calculate_comprehensive_score (safety_score trading_activity
    price_resilience : ℚ) : ℚ :=
  safety_score * trading_activity * price_resilience * 100

/-- Claim C2: on an instrument whose latest monthly change is +5% while
the universe average change is +10%, the resilience branch
`(change + 10) / 10` returns 3/2, outside `[0, 1]`; with a maximal safety
score (q = 10, price percentile 0, no declining streak) and full trading
activity the composite score becomes 150, outside `[0, 100]`. -/
theorem resilience_exceeds_bounds :
    calculate_price_resilience_coefficient (some 5) 10 = 3/2 ∧
    1 < calculate_price_resilience_coefficient (some 5) 10 ∧
    calculate_valuation_safety_score (some (1/10)) (some 0) [10, 10] = 1 ∧
    calculate_trading_activity_coefficient (some 1) (some 1) = 1 ∧
    calculate_comprehensive_score 1 1 (3/2) = 150 := by
  refine ⟨?_, ?_, ?_, ?_, ?_⟩
  · norm_num [calculate_price_resilience_coefficient, max_def]
  · norm_num [calculate_price_resilience_coefficient, max_def]
  · norm_num [calculate_valuation_safety_score, check_valuation_declining]
  · norm_num [calculate_trading_activity_coefficient]
  · norm_num [calculate_comprehensive_score]

/-- Claim C5: whenever `q < 10`, or at least 3 consecutive declining
months, or `pp > 70` holds — each condition independently of the others —
the safety score is 0 and therefore every composite score built from it
is 0. -/
theorem safety_score_exclusion_rules (pe pr : ℚ) (hist : List ℚ)
    (h : pe * 100 < 10 ∨ 3 ≤ check_valuation_declining hist ∨
      70 < pr * 100) :
    calculate_valuation_safety_score (some pe) (some pr) hist = 0 ∧
    ∀ activity resilience : ℚ,
      calculate_comprehensive_score
        (calculate_valuation_safety_score (some pe) (some pr) hist)
        activity resilience = 0 := by
  have h0 : calculate_valuation_safety_score (some pe) (some pr) hist
      = 0 := by
    simp only [calculate_valuation_safety_score]
    rcases h with h | h | h
    · rw [if_pos (Or.inl h)]
    · rw [if_pos (Or.inr h)]
    · by_cases h1 : pe * 100 < 10 ∨ 3 ≤ check_valuation_declining hist
      · rw [if_pos h1]
      · rw [if_neg h1, if_pos h]
  refine ⟨h0, fun activity resilience => ?_⟩
  rw [h0]
  simp [calculate_comprehensive_score]

theorem safety_score_exclusion_witness :
    calculate_valuation_safety_score (some 0) (some 0) [] = 0 ∧
    ∀ activity resilience : ℚ,
      calculate_comprehensive_score
        (calculate_valuation_safety_score (some 0) (some 0) [])
        activity resilience = 0 :=
  safety_score_exclusion_rules 0 0 [] (Or.inl (by norm_num))

/-- A screened instrument record of
`select_best_sw_lv2_indices_by_valuation`; only the identity fields and
the composite score, which alone drives filtering and ranking, are kept. -/
structure IndexValuation where
  code : String
  name : String
  comprehensive_score : ℚ

/-- Order of the stable descending sort on the composite score
(`sw_lv2_selector.py` line 457). -/
def score_ge (a b : IndexValuation) : Prop :=
  b.comprehensive_score ≤ a.comprehensive_score

instance : DecidableRel score_ge := fun a b =>
  inferInstanceAs (Decidable (b.comprehensive_score ≤ a.comprehensive_score))

instance : IsTotal IndexValuation score_ge :=
  ⟨fun a b => le_total b.comprehensive_score a.comprehensive_score⟩

instance : IsTrans IndexValuation score_ge :=
  ⟨fun _ _ _ hab hbc => le_trans hbc hab⟩

/-- Embedding of the filtering/ranking stage of
`select_best_sw_lv2_indices_by_valuation` (`sw_lv2_selector.py` lines
436-465): only candidates with composite score strictly greater than 0 are
collected, they are sorted descending by composite score, and when more
than 8 remain only the first 8 are kept.  (The empty-list early return of
the source coincides with sorting and truncating the empty list.) -/
def select_best_sw_lv2_indices_by_valuation
    (candidates : List IndexValuation) : List IndexValuation :=
  let qualified := candidates.filter (fun c => 0 < c.comprehensive_score)
  let ranked := qualified.insertionSort score_ge
  if 8 < ranked.length then ranked.take 8 else ranked

/-- Claim C6: the screener result contains only instruments with positive
composite score, is sorted descending by composite score, has length
`min (number of survivors) 8`, and is the top of the survivor list: the
result together with some dropped remainder is a permutation of the
survivors and every dropped survivor scores at most every retained one, so
when more than 8 survive exactly the top 8 by score are kept; when at most
8 survive the result is the whole survivor list (up to the sort), with no
floor enforcement. -/
theorem screener_filter_sort_truncate (candidates : List IndexValuation) :
    (∀ e ∈ select_best_sw_lv2_indices_by_valuation candidates,
      0 < e.comprehensive_score) ∧
    List.Sorted score_ge
      (select_best_sw_lv2_indices_by_valuation candidates) ∧
    (select_best_sw_lv2_indices_by_valuation candidates).length =
      min (candidates.filter
        (fun c => 0 < c.comprehensive_score)).length 8 ∧
    (∃ dropped : List IndexValuation,
      List.Perm
        (select_best_sw_lv2_indices_by_valuation candidates ++ dropped)
        (candidates.filter (fun c => 0 < c.comprehensive_score)) ∧
      ∀ e ∈ select_best_sw_lv2_indices_by_valuation candidates,
        ∀ f ∈ dropped,
          f.comprehensive_score ≤ e.comprehensive_score) ∧
    ((candidates.filter
        (fun c => 0 < c.comprehensive_score)).length ≤ 8 →
      List.Perm (select_best_sw_lv2_indices_by_valuation candidates)
        (candidates.filter (fun c => 0 < c.comprehensive_score))) := by
  have hperm : List.Perm ((candidates.filter
      (fun c => 0 < c.comprehensive_score)).insertionSort score_ge)
      (candidates.filter (fun c => 0 < c.comprehensive_score)) :=
    List.perm_insertionSort score_ge _
  have hsorted : List.Sorted score_ge ((candidates.filter
      (fun c => 0 < c.comprehensive_score)).insertionSort score_ge) :=
    List.sorted_insertionSort score_ge _
  have hlen := hperm.length_eq
  have hmem : ∀ e ∈ (candidates.filter
      (fun c => 0 < c.comprehensive_score)).insertionSort score_ge,
      0 < e.comprehensive_score := by
    intro e he
    have := (List.mem_filter.mp (hperm.mem_iff.mp he)).2
    exact of_decide_eq_true this
  have hsplit : List.Pairwise score_ge
      (List.take 8 ((candidates.filter
        (fun c => 0 < c.comprehensive_score)).insertionSort score_ge) ++
       List.drop 8 ((candidates.filter
        (fun c => 0 < c.comprehensive_score)).insertionSort score_ge)) := by
    rw [List.take_append_drop]
    exact hsorted
  simp only [select_best_sw_lv2_indices_by_valuation]
  by_cases hc : 8 < ((candidates.filter
      (fun c => 0 < c.comprehensive_score)).insertionSort score_ge).length
  · rw [if_pos hc]
    refine ⟨fun e he => hmem e (List.take_subset 8 _ he), ?_, ?_, ?_, ?_⟩
    · exact List.Pairwise.sublist (List.take_sublist 8 _) hsorted
    · rw [List.length_take, hlen, min_comm]
    · refine ⟨List.drop 8 ((candidates.filter
        (fun c => 0 < c.comprehensive_score)).insertionSort score_ge),
        ?_, ?_⟩
      · rw [List.take_append_drop]
        exact hperm
      · exact fun e he f hf => (List.pairwise_append.mp hsplit).2.2 e he f hf
    · intro h8
      omega
  · rw [if_neg hc]
    refine ⟨hmem, hsorted, ?_, ?_, fun _ => hperm⟩
    · rw [hlen, min_eq_left (by omega)]
    · exact ⟨[], by rw [List.append_nil]; exact hperm,
        fun e _ f hf => absurd hf (List.not_mem_nil f)⟩

theorem screener_filter_sort_truncate_witness :
    List.Perm
      (select_best_sw_lv2_indices_by_valuation
        [⟨"801010", "A", 2⟩, ⟨"801020", "B", 0⟩, ⟨"801030", "C", 5⟩,
          ⟨"801040", "D", 1⟩])
      (List.filter (fun c => 0 < c.comprehensive_score)
        [⟨"801010", "A", 2⟩, ⟨"801020", "B", 0⟩, ⟨"801030", "C", 5⟩,
          ⟨"801040", "D", 1⟩]) ∧
    (select_best_sw_lv2_indices_by_valuation
        [⟨"801011", "E1", 9⟩, ⟨"801012", "E2", 8⟩, ⟨"801013", "E3", 7⟩,
          ⟨"801014", "E4", 6⟩, ⟨"801015", "E5", 5⟩, ⟨"801016", "E6", 4⟩,
          ⟨"801017", "E7", 3⟩, ⟨"801018", "E8", 2⟩,
          ⟨"801019", "E9", 1⟩]).length =
      min (List.filter (fun c => 0 < c.comprehensive_score)
        ([⟨"801011", "E1", 9⟩, ⟨"801012", "E2", 8⟩, ⟨"801013", "E3", 7⟩,
          ⟨"801014", "E4", 6⟩, ⟨"801015", "E5", 5⟩, ⟨"801016", "E6", 4⟩,
          ⟨"801017", "E7", 3⟩, ⟨"801018", "E8", 2⟩,
          ⟨"801019", "E9", 1⟩] : List IndexValuation)).length 8 ∧
    (∃ dropped : List IndexValuation,
      List.Perm
        (select_best_sw_lv2_indices_by_valuation
          [⟨"801011", "E1", 9⟩, ⟨"801012", "E2", 8⟩, ⟨"801013", "E3", 7⟩,
            ⟨"801014", "E4", 6⟩, ⟨"801015", "E5", 5⟩, ⟨"801016", "E6", 4⟩,
            ⟨"801017", "E7", 3⟩, ⟨"801018", "E8", 2⟩,
            ⟨"801019", "E9", 1⟩] ++ dropped)
        (List.filter (fun c => 0 < c.comprehensive_score)
          ([⟨"801011", "E1", 9⟩, ⟨"801012", "E2", 8⟩, ⟨"801013", "E3", 7⟩,
            ⟨"801014", "E4", 6⟩, ⟨"801015", "E5", 5⟩, ⟨"801016", "E6", 4⟩,
            ⟨"801017", "E7", 3⟩, ⟨"801018", "E8", 2⟩,
            ⟨"801019", "E9", 1⟩] : List IndexValuation)) ∧
      ∀ e ∈ select_best_sw_lv2_indices_by_valuation
          [⟨"801011", "E1", 9⟩, ⟨"801012", "E2", 8⟩, ⟨"801013", "E3", 7⟩,
            ⟨"801014", "E4", 6⟩, ⟨"801015", "E5", 5⟩, ⟨"801016", "E6", 4⟩,
            ⟨"801017", "E7", 3⟩, ⟨"801018", "E8", 2⟩,
            ⟨"801019", "E9", 1⟩],
        ∀ f ∈ dropped, f.comprehensive_score ≤ e.comprehensive_score) :=
  ⟨(screener_filter_sort_truncate _).2.2.2.2 (by norm_num [List.filter]),
    (screener_filter_sort_truncate _).2.2.1,
    (screener_filter_sort_truncate _).2.2.2.1⟩

end AssetAlloc
